import Mathlib

/-!
A verification development for the osxkeychain credential-helper backend
(`osxkeychain_darwin.go`).  The Go file is a thin adapter: `splitServer`
normalizes a server URL (via Go's `net/url.Parse`, a scheme regex and
`strconv.Atoi`) into a `Server` record, and `Add` / `Delete` / `Get` /
`List` marshal credentials into the macOS keychain through the C
primitives `keychain_add` / `keychain_delete` / `keychain_get` /
`keychain_list`.

The URL layer below is a shallow embedding of the code the Go file
executes: Go's `net/url.Parse` (scheme detection, authority splitting,
host/port validation, percent-escape handling), `URL.Hostname` /
`URL.Port`, `strconv.Atoi`, and the anchored regular expression
`^([a-zA-Z][-+.a-zA-Z0-9]+:)?//` that `splitServer` tests before
prepending `//`.  Strings are modelled as `List Char`; Go iterates bytes,
but every byte the parser inspects specially is ASCII, so the char-level
model agrees with the byte-level code on the checks performed.

The keychain primitives themselves are C code of the repository that is
not among the given source files; they are modelled from the spec (each
such definition says so in its doc comment).
-/

deriving instance DecidableEq for Except

/-! ## Errors of the URL-normalization layer

One constructor per distinct error construction site in the code paths
`splitServer` can reach: Go's `net/url` errors, `strconv` errors, and
`splitServer`'s own two `errors.New` calls. -/

inductive URLError where
  /-- net/url: "net/url: invalid control character in URL". -/
  | invalidControlChar : URLError
  /-- net/url getScheme: "missing protocol scheme". -/
  | missingScheme : URLError
  /-- net/url parseHost: invalid port ":…" after host. -/
  | invalidPort (colonPort : String) : URLError
  /-- net/url parseHost: "missing ']' in host". -/
  | missingCloseBracket : URLError
  /-- net/url unescape: "invalid character in host name". -/
  | invalidHostChar (s : String) : URLError
  /-- net/url unescape: malformed or forbidden percent-escape. -/
  | badEscape (s : String) : URLError
  /-- net/url parseAuthority: "net/url: invalid userinfo". -/
  | invalidUserinfo : URLError
  /-- net/url parse: "first path segment in URL cannot contain colon". -/
  | firstSegmentColon : URLError
  /-- splitServer: "unsupported scheme: " + scheme. -/
  | unsupportedScheme (scheme : String) : URLError
  /-- splitServer: "no hostname in URL". -/
  | noHostname : URLError
  /-- strconv.Atoi: syntax error. -/
  | atoiInvalid (s : String) : URLError
  /-- strconv.Atoi: value out of range for a 64-bit int. -/
  | atoiRange (s : String) : URLError
deriving DecidableEq

/-! ## List-of-char helpers mirroring the string operations Go performs -/

/-- Go net/url `split(s, sep, cutc)`: split at the first occurrence of
`sep`; the separator is dropped from the suffix when `cutc`. -/
def splitChar (sep : Char) (cutc : Bool) : List Char → List Char × List Char
  | [] => ([], [])
  | c :: rest =>
    if c = sep then ([], if cutc then rest else c :: rest)
    else
      let p := splitChar sep cutc rest
      (c :: p.1, p.2)

/-- `strings.LastIndexByte`-style last index of a character. -/
def lastIdxOf (sep : Char) : List Char → Option Nat
  | [] => none
  | c :: rest =>
    match lastIdxOf sep rest with
    | some i => some (i + 1)
    | none => if c = sep then some 0 else none

/-- Whether the list starts with the given characters. -/
def leadChars : List Char → List Char → Bool
  | [], _ => true
  | p :: ps, x :: xs => p = x && leadChars ps xs
  | _ :: _, [] => false

/-- Whether the character occurs in the list (`strings.Contains` for one byte). -/
def containsChar (sep : Char) (s : List Char) : Bool := s.any (fun c => c = sep)

/-- Go `stringContainsCTLByte`: a byte below 0x20 or equal to 0x7f. -/
def containsCTL (s : List Char) : Bool := s.any (fun c => c.toNat < 0x20 || c.toNat = 0x7f)

/-- ASCII lowercase of one character; the schemes this is applied to are
all-ASCII by construction of `getScheme`, where `strings.ToLower` and the
ASCII mapping agree. -/
def toLowerChar (c : Char) : Char :=
  if 'A' ≤ c ∧ c ≤ 'Z' then Char.ofNat (c.toNat + 32) else c

/-- `strings.ToLower` on the all-ASCII scheme. -/
def listToLower (s : List Char) : List Char := s.map toLowerChar

/-! ## Go net/url: getScheme -/

/-- The loop of net/url `getScheme` from index 1 on: letters, digits and
`+` `-` `.` extend the scheme, `:` ends it, anything else means the whole
string has no scheme. -/
def getSchemeLoop (orig : List Char) (acc : List Char) : List Char → Except URLError (List Char × List Char)
  | [] => .ok ([], orig)
  | c :: rest =>
    if c.isAlpha = true ∨ c.isDigit = true ∨ c = '+' ∨ c = '-' ∨ c = '.' then
      getSchemeLoop orig (acc ++ [c]) rest
    else if c = ':' then .ok (acc, rest)
    else .ok ([], orig)

/-- net/url `getScheme`: split `scheme:rest`; a leading `:` is an error,
a leading non-letter means there is no scheme. -/
def getScheme (rawURL : List Char) : Except URLError (List Char × List Char) :=
  match rawURL with
  | [] => .ok ([], [])
  | c :: rest =>
    if c.isAlpha = true then getSchemeLoop rawURL [c] rest
    else if c = ':' then .error .missingScheme
    else .ok ([], rawURL)

/-! ## Go net/url: unescape and host validation -/

/-- net/url `shouldEscape(c, encodeHost)` for ASCII `c`: the characters a
host component may contain unescaped. -/
def shouldEscapeHost (c : Char) : Bool :=
  if c.isAlpha || c.isDigit then false
  else if c = '!' || c = '$' || c = '&' || c = '\'' || c = '(' || c = ')' || c = '*'
      || c = '+' || c = ',' || c = ';' || c = '=' || c = ':' || c = '[' || c = ']'
      || c = '<' || c = '>' || c = '"' then false
  else if c = '-' || c = '_' || c = '.' || c = '~' then false
  else true

/-- net/url `ishex`. -/
def isHexChar (c : Char) : Bool :=
  ('0' ≤ c && c ≤ '9') || ('a' ≤ c && c ≤ 'f') || ('A' ≤ c && c ≤ 'F')

/-- net/url `unhex`. -/
def unhexVal (c : Char) : Nat :=
  if '0' ≤ c ∧ c ≤ '9' then c.toNat - '0'.toNat
  else if 'a' ≤ c ∧ c ≤ 'f' then c.toNat - 'a'.toNat + 10
  else if 'A' ≤ c ∧ c ≤ 'F' then c.toNat - 'A'.toNat + 10
  else 0

/-- The escape modes of net/url `unescape` that `Parse` can reach from
`splitServer`'s call. -/
inductive Encoding where
  | path | host | zone | fragment | userPassword
deriving DecidableEq

/-- net/url `unescape`: validates percent-escapes (in a host, only
`%25` and escapes of bytes ≥ 0x80 are legal; in a zone, only escapes of
bytes legal in a host, plus space), rejects raw host characters that
would need escaping, and returns the decoded text. -/
def unescape (mode : Encoding) : List Char → Except URLError (List Char)
  | [] => .ok []
  | '%' :: rest =>
    match rest with
    | c1 :: c2 :: rest2 =>
      if ¬ (isHexChar c1 = true ∧ isHexChar c2 = true) then
        .error (.badEscape (String.mk ['%', c1, c2]))
      else if mode = Encoding.host ∧ unhexVal c1 < 8 ∧ ¬ (c1 = '2' ∧ c2 = '5') then
        .error (.badEscape (String.mk ['%', c1, c2]))
      else if mode = Encoding.zone ∧ ¬ (c1 = '2' ∧ c2 = '5')
          ∧ ¬ (unhexVal c1 * 16 + unhexVal c2 = 32)
          ∧ shouldEscapeHost (Char.ofNat (unhexVal c1 * 16 + unhexVal c2)) = true then
        .error (.badEscape (String.mk ['%', c1, c2]))
      else
        match unescape mode rest2 with
        | .error e => .error e
        | .ok tl => .ok (Char.ofNat (unhexVal c1 * 16 + unhexVal c2) :: tl)
    | _ => .error (.badEscape (String.mk ('%' :: rest)))
  | '+' :: rest =>
    match unescape mode rest with
    | .error e => .error e
    | .ok tl => .ok ('+' :: tl)
  | c :: rest =>
    if (mode = Encoding.host ∨ mode = Encoding.zone) ∧ c.toNat < 0x80 ∧ shouldEscapeHost c = true then
      .error (.invalidHostChar (String.mk [c]))
    else
      match unescape mode rest with
      | .error e => .error e
      | .ok tl => .ok (c :: tl)

/-- net/url `validOptionalPort`: empty, or `:` followed by digits only. -/
def validOptionalPort : List Char → Bool
  | [] => true
  | ':' :: rest => rest.all Char.isDigit
  | _ => false

/-- First index of the substring `%25` (`strings.Index(s, "%25")`). -/
def zoneIdx : List Char → Option Nat
  | '%' :: '2' :: '5' :: _ => some 0
  | _ :: rest =>
    match zoneIdx rest with
    | some i => some (i + 1)
    | none => none
  | [] => none

/-- net/url `parseHost`: bracketed IP-literals (with RFC 6874 zones),
port validation after the last colon, then host unescaping. -/
def parseHost (host : List Char) : Except URLError (List Char) :=
  match host with
  | '[' :: _ =>
    match lastIdxOf ']' host with
    | none => .error .missingCloseBracket
    | some i =>
      let colonPort := host.drop (i + 1)
      if validOptionalPort colonPort = false then .error (.invalidPort (String.mk colonPort))
      else
        match zoneIdx (host.take i) with
        | some z =>
          match unescape Encoding.host ((host.take i).take z) with
          | .error e => .error e
          | .ok host1 =>
            match unescape Encoding.zone ((host.take i).drop z) with
            | .error e => .error e
            | .ok host2 =>
              match unescape Encoding.host (host.drop i) with
              | .error e => .error e
              | .ok host3 => .ok (host1 ++ host2 ++ host3)
        | none => unescape Encoding.host host
  | _ =>
    match lastIdxOf ':' host with
    | some i =>
      if validOptionalPort (host.drop i) = false then .error (.invalidPort (String.mk (host.drop i)))
      else unescape Encoding.host host
    | none => unescape Encoding.host host

/-- net/url `validUserinfo`: RFC 3986 userinfo characters. -/
def validUserinfoChar (c : Char) : Bool :=
  c.isAlpha || c.isDigit || c = '-' || c = '.' || c = '_' || c = ':' || c = '~'
    || c = '!' || c = '$' || c = '&' || c = '\'' || c = '(' || c = ')' || c = '*'
    || c = '+' || c = ',' || c = ';' || c = '=' || c = '%' || c = '@'

/-- net/url `validUserinfo`. -/
def validUserinfo (s : List Char) : Bool := s.all validUserinfoChar

/-- net/url `parseAuthority`: split userinfo at the last `@`, parse the
host, then validate and unescape the userinfo (whose decoded value the
caller never uses, so only the host is returned). -/
def parseAuthority (authority : List Char) : Except URLError (List Char) :=
  match lastIdxOf '@' authority with
  | none => parseHost authority
  | some i =>
    match parseHost (authority.drop (i + 1)) with
    | .error e => .error e
    | .ok host =>
      let userinfo := authority.take i
      if validUserinfo userinfo = false then .error .invalidUserinfo
      else if containsChar ':' userinfo = false then
        match unescape Encoding.userPassword userinfo with
        | .error e => .error e
        | .ok _ => .ok host
      else
        let p := splitChar ':' true userinfo
        match unescape Encoding.userPassword p.1 with
        | .error e => .error e
        | .ok _ =>
          match unescape Encoding.userPassword p.2 with
          | .error e => .error e
          | .ok _ => .ok host

/-! ## Go net/url: Parse -/

/-- The fields of Go's `url.URL` that `Parse` fills on the paths
reachable from `splitServer` (the userinfo is validated but never read
back, see `parseAuthority`). -/
structure GoURL where
  Scheme : List Char
  Opaque : List Char
  Host : List Char
  Path : List Char
  ForceQuery : Bool
  RawQuery : List Char
  Fragment : List Char
deriving DecidableEq

/-- net/url `parse`, query handling: a single trailing `?` sets
ForceQuery, otherwise split at the first `?`. -/
def stripQuery (rest : List Char) : List Char × List Char × Bool :=
  if rest.getLast? = some '?' ∧ containsChar '?' rest.dropLast = false then
    (rest.dropLast, [], true)
  else
    ((splitChar '?' true rest).1, (splitChar '?' true rest).2, false)

/-- net/url `parse` after the scheme is split off (with
`viaRequest = false`, as `url.Parse` calls it): query split, opaque
rootless paths, the colon check on the first path segment of relative
URLs, authority parsing for `//…`, and `setPath`. -/
def parseAfterSchemeQ (scheme rest : List Char) (rawQuery : List Char) (forceQuery : Bool) :
    Except URLError GoURL :=
  if leadChars ['/'] rest = false ∧ scheme ≠ [] then
    .ok ⟨scheme, rest, [], [], forceQuery, rawQuery, []⟩
  else if leadChars ['/'] rest = false ∧ containsChar ':' (splitChar '/' false rest).1 = true then
    .error .firstSegmentColon
  else if (scheme ≠ [] ∨ leadChars ['/', '/', '/'] rest = false) ∧ leadChars ['/', '/'] rest = true then
    match parseAuthority (splitChar '/' false (rest.drop 2)).1 with
    | .error e => .error e
    | .ok host =>
      match unescape Encoding.path (splitChar '/' false (rest.drop 2)).2 with
      | .error e => .error e
      | .ok path => .ok ⟨scheme, [], host, path, forceQuery, rawQuery, []⟩
  else
    match unescape Encoding.path rest with
    | .error e => .error e
    | .ok path => .ok ⟨scheme, [], [], path, forceQuery, rawQuery, []⟩

/-- The query split feeding `parseAfterSchemeQ`. -/
def parseAfterScheme (scheme rest0 : List Char) : Except URLError GoURL :=
  parseAfterSchemeQ scheme (stripQuery rest0).1 (stripQuery rest0).2.1 (stripQuery rest0).2.2

/-- net/url `parse` (`viaRequest = false`): control-character check, the
`*` special case, scheme split (lowercased), then `parseAfterScheme`. -/
def parseInner (rawURL : List Char) : Except URLError GoURL :=
  if containsCTL rawURL = true then .error .invalidControlChar
  else if rawURL = ['*'] then .ok ⟨[], [], [], ['*'], false, [], []⟩
  else
    match getScheme rawURL with
    | .error e => .error e
    | .ok sr => parseAfterScheme (listToLower sr.1) sr.2

/-- net/url `Parse`: split the fragment off first, parse the rest, then
validate and decode the fragment. -/
def urlParse (rawURL : List Char) : Except URLError GoURL :=
  match parseInner (splitChar '#' true rawURL).1 with
  | .error e => .error e
  | .ok u =>
    if (splitChar '#' true rawURL).2 = [] then .ok u
    else
      match unescape Encoding.fragment (splitChar '#' true rawURL).2 with
      | .error e => .error e
      | .ok f => .ok { u with Fragment := f }

/-- net/url `splitHostPort`: strip a valid `:port` suffix, then strip
surrounding brackets. -/
def splitHostPort (hostPort : List Char) : List Char × List Char :=
  let hp :=
    match lastIdxOf ':' hostPort with
    | some i =>
      if validOptionalPort (hostPort.drop i) = true then (hostPort.take i, hostPort.drop (i + 1))
      else (hostPort, [])
    | none => (hostPort, [])
  let host := hp.1
  let host2 :=
    if leadChars ['['] host = true ∧ host.getLast? = some ']' then (host.drop 1).dropLast
    else host
  (host2, hp.2)

/-- `url.URL.Hostname()`. -/
def urlHostname (u : GoURL) : List Char := (splitHostPort u.Host).1

/-- `url.URL.Port()`. -/
def urlPort (u : GoURL) : List Char := (splitHostPort u.Host).2

/-! ## Go strconv.Atoi -/

/-- Accumulate a decimal value. -/
def digitsToNat (acc : Nat) : List Char → Nat
  | [] => acc
  | c :: rest => digitsToNat (acc * 10 + (c.toNat - '0'.toNat)) rest

/-- Go `strconv.Atoi` on a 64-bit platform: optional sign, decimal
digits, syntax error otherwise, range error outside the int64 range. -/
def goAtoi (s : List Char) : Except URLError Int :=
  match s with
  | [] => .error (.atoiInvalid (String.mk s))
  | _ :: _ =>
    let sd : Bool × List Char :=
      match s with
      | '-' :: r => (true, r)
      | '+' :: r => (false, r)
      | r => (false, r)
    if sd.2 = [] then .error (.atoiInvalid (String.mk s))
    else if sd.2.all Char.isDigit = false then .error (.atoiInvalid (String.mk s))
    else
      let v := digitsToNat 0 sd.2
      if sd.1 = true then
        if v ≤ 2 ^ 63 then .ok (-(v : Int)) else .error (.atoiRange (String.mk s))
      else
        if v ≤ 2 ^ 63 - 1 then .ok (v : Int) else .error (.atoiRange (String.mk s))

/-! ## splitServer -/

/-- A character of the regex class `[-+.a-zA-Z0-9]`. -/
def isSchemeTailChar (c : Char) : Bool :=
  c.isAlpha || c.isDigit || c = '+' || c = '-' || c = '.'

/-- Whether the string starts with `[a-zA-Z][-+.a-zA-Z0-9]+://`
(the scheme-present alternative of `splitServer`'s anchored regex: a
letter, at least one scheme-tail character, then `://`; since `:` and `/`
are not scheme-tail characters, the greedy `+` is deterministic). -/
def schemeAtStart (s : List Char) : Bool :=
  match s with
  | c :: rest =>
    c.isAlpha && !(rest.takeWhile isSchemeTailChar).isEmpty
      && leadChars [':', '/', '/'] (rest.dropWhile isSchemeTailChar)
  | [] => false

/-- `regexp.MustCompile("^([a-zA-Z][-+.a-zA-Z0-9]+:)?//").MatchString`:
the string starts with `//`, optionally preceded by `scheme:`. -/
def codeRegexAccepts (s : List Char) : Bool :=
  leadChars ['/', '/'] s || schemeAtStart s

/-- The URL string `splitServer` hands to `url.Parse`: `//` is prepended
when the regex does not match. -/
def normalizeInput (s : String) : List Char :=
  if codeRegexAccepts s.data = true then s.data else '/' :: '/' :: s.data

/-- `kSecProtocolTypeHTTPS` / `kSecProtocolTypeHTTP`. -/
inductive SecProtocolType where
  | HTTPS | HTTP
deriving DecidableEq

/-- The C `struct Server` handed to the keychain primitives: protocol,
`u.Host`, port (a C `uint`, so the Go int truncated mod 2^32) and
`u.Path`. -/
structure Server where
  proto : SecProtocolType
  host : String
  port : Nat
  path : String
deriving DecidableEq

/-- `splitServer`: regex-normalize, `url.Parse`, accept only the empty,
`http` and `https` schemes, require a hostname, default the protocol to
HTTPS, and parse a present port with `strconv.Atoi`. -/
def splitServer (serverURL : String) : Except URLError Server :=
  match urlParse (normalizeInput serverURL) with
  | .error e => .error e
  | .ok u =>
    if u.Scheme ≠ [] ∧ u.Scheme ≠ "https".data ∧ u.Scheme ≠ "http".data then
      .error (.unsupportedScheme (String.mk u.Scheme))
    else if urlHostname u = [] then .error .noHostname
    else
      match (if urlPort u ≠ [] then goAtoi (urlPort u) else .ok 0) with
      | .error e => .error e
      | .ok p =>
        .ok ⟨(if u.Scheme = "http".data then SecProtocolType.HTTP else SecProtocolType.HTTPS),
             String.mk u.Host, (p.emod (2 ^ 32)).toNat, String.mk u.Path⟩

/-- The spec's phrase "a non-empty host can be extracted" made precise
against the code: the URL string `splitServer` builds parses, and
`Hostname()` of the result is non-empty. -/
def hostExtractable (s : String) : Bool :=
  match urlParse (normalizeInput s) with
  | .ok u => !(urlHostname u).isEmpty
  | .error _ => false

/-- Whether the port component, when present after parsing, is accepted
by `strconv.Atoi` (in particular it fits a signed 64-bit integer);
vacuously true when the URL does not parse. -/
def portFits (s : String) : Bool :=
  match urlParse (normalizeInput s) with
  | .ok u => (urlPort u).isEmpty || (goAtoi (urlPort u)).isOk
  | .error _ => true

/-! ## The credential model and the keychain store

`Add` / `Delete` / `Get` / `List` in the Go file call the C primitives
`keychain_add` / `keychain_delete` / `keychain_get` / `keychain_list`,
whose implementation is repository code outside the given sources; the
primitives are therefore modelled from the spec, as explicit state
passing over a list of stored entries. -/

/-- `credentials.Credentials`: the caller-supplied credential
(spec §3: serverURL is the lookup key, username and secret opaque). -/
structure Credentials where
  ServerURL : String
  Username : String
  Secret : String
deriving DecidableEq

/-- Modelled from the spec: `credentials.CredsLabel`, the fixed
application-identifying tag attached to every stored entry (glossary);
its concrete text does not matter to any claim. -/
def CredsLabel : String := "Docker Credentials"

/-- The exact macOS message the Go file compares against
(`errCredentialsNotFound`, source line 23). -/
def errCredentialsNotFound : String :=
  "The specified item could not be found in the keychain."

/-- Modelled from the spec: the platform message for adding an entry
whose key already exists (the overwrite-via-Delete-then-Add design of
spec §3/§4.2 presupposes that a plain add of an existing key fails). -/
def errDuplicateItem : String :=
  "The specified item already exists in the keychain."

/-- One stored keychain entry: the normalized server key, the label, and
the credential fields. -/
structure KEntry where
  server : Server
  label : String
  username : String
  secret : String
deriving DecidableEq

/-- The keychain contents. -/
abbrev KState := List KEntry

/-- Whether a stored entry is addressed by the normalized server key. -/
def serverMatches (s : Server) (e : KEntry) : Bool := decide (e.server = s)

/-- Whether some stored entry is addressed by the key. -/
def hasServer (st : KState) (s : Server) : Bool := st.any (serverMatches s)

/-- Modelled from the spec: the C primitive `keychain_add` (spec §4.2:
the platform add-entry call with server key, label, username and secret;
a platform failure comes back as a message). Adding a key that is
already stored fails with the duplicate-item message; otherwise the
entry is appended. -/
def keychain_add (st : KState) (s : Server) (label username secret : String) :
    KState × Option String :=
  if hasServer st s = true then (st, some errDuplicateItem)
  else (st ++ [⟨s, label, username, secret⟩], none)

/-- Modelled from the spec: the C primitive `keychain_delete` (spec
§4.2: the platform delete-entry call). The first entry with the key is
removed; a missing key yields the platform's not-found message. -/
def keychain_delete (st : KState) (s : Server) : KState × Option String :=
  if hasServer st s = true then (st.eraseP (serverMatches s), none)
  else (st, some errCredentialsNotFound)

/-- Modelled from the spec: the C primitive `keychain_get` (spec §4.2:
the platform lookup returning username and secret buffers). The first
entry with the key answers; a missing key yields the platform's
not-found message. -/
def keychain_get (st : KState) (s : Server) : Except String (String × String) :=
  match st.find? (serverMatches s) with
  | some e => .ok (e.username, e.secret)
  | none => .error errCredentialsNotFound

/-- The errors the Go operations return: a normalization error, the
typed `credentials.NewErrCredentialsNotFound`, or a generic
`errors.New` carrying a platform message. -/
inductive GoError where
  | url (e : URLError)
  | credentialsNotFound
  | platform (msg : String)
deriving DecidableEq

/-- `Osxkeychain.Get`'s error translation (source lines 86–95): the
platform message equal to `errCredentialsNotFound` becomes the typed
not-found error, any other message a generic error carrying it. -/
def keychainGetTranslate (msg : String) : GoError :=
  if msg = errCredentialsNotFound then GoError.credentialsNotFound
  else GoError.platform msg

/-- `Osxkeychain.Delete` (source lines 55–69): normalize the URL, call
`keychain_delete`, and surface any platform message as a generic error. -/
def Osxkeychain.Delete (st : KState) (serverURL : String) : KState × Option GoError :=
  match splitServer serverURL with
  | .error e => (st, some (GoError.url e))
  | .ok s =>
    match keychain_delete st s with
    | (st2, some msg) => (st2, some (GoError.platform msg))
    | (st2, none) => (st2, none)

/-- `Osxkeychain.Add` (source lines 29–52): first call `Delete` on the
credential's serverURL, discarding its result, then normalize the URL
and call `keychain_add` with the fixed label, username and secret. -/
def Osxkeychain.Add (st : KState) (creds : Credentials) : KState × Option GoError :=
  let st1 := (Osxkeychain.Delete st creds.ServerURL).1
  match splitServer creds.ServerURL with
  | .error e => (st1, some (GoError.url e))
  | .ok s =>
    match keychain_add st1 s CredsLabel creds.Username creds.Secret with
    | (st2, some msg) => (st2, some (GoError.platform msg))
    | (st2, none) => (st2, none)

/-- `Osxkeychain.Get` (source lines 72–100): normalize the URL, call
`keychain_get`, translate the not-found message to the typed error, and
decode the returned buffers. -/
def Osxkeychain.Get (st : KState) (serverURL : String) :
    Except GoError (String × String) :=
  match splitServer serverURL with
  | .error e => .error (GoError.url e)
  | .ok s =>
    match keychain_get st s with
    | .error msg => .error (keychainGetTranslate msg)
    | .ok up => .ok up

/-- The parallel (key, account) pairs a successful `keychain_list`
enumeration produces. -/
abbrev GoPairs := List (String × String)

/-- The Go `map[string]string` the Go loop builds, as an association
list with at most one binding per key. -/
abbrev GoMap := List (String × String)

/-- `resp[k] = v` on a Go map: replace the binding if the key is
present, extend otherwise. -/
def goMapInsert : GoMap → String → String → GoMap
  | [], k, v => [(k, v)]
  | (k', v') :: rest, k, v =>
    if k' = k then (k, v) :: rest else (k', v') :: goMapInsert rest k v

/-- The loop of `Osxkeychain.List` (source lines 128–134): walk the
enumerated pairs in order, skip every pair whose key is the literal
`"0"`, and insert the rest into the map. -/
def listToMap (pairs : GoPairs) : GoMap :=
  pairs.foldl (fun resp p => if p.1 = "0" then resp else goMapInsert resp p.1 p.2) []

/-- `Osxkeychain.List` (source lines 103–135) applied to the outcome of
the `keychain_list` enumeration: an enumeration failure is surfaced as a
generic error, a successful one is folded into the map. -/
def Osxkeychain.List (res : Except String GoPairs) : Except GoError GoMap :=
  match res with
  | .error msg => .error (GoError.platform msg)
  | .ok pairs => .ok (listToMap pairs)

/-- Go map lookup on the association-list representation. -/
def goMapLookup (m : GoMap) (k : String) : Option String :=
  (m.find? (fun p => decide (p.1 = k))).map (fun p => p.2)

/-- The account of the last enumerated pair carrying the key, if any. -/
def lastAccountFor : GoPairs → String → Option String
  | [], _ => none
  | p :: rest, k =>
    match lastAccountFor rest k with
    | some v => some v
    | none => if p.1 = k then some p.2 else none

/-- A keychain state stores at most one entry per server key.  The empty
keychain is well-formed and (as proved below) every operation preserves
well-formedness, so this is an invariant of every reachable state. -/
def WellFormed (st : KState) : Prop :=
  st.Pairwise (fun a b => a.server ≠ b.server)

/-! ## Store lemmas

Shared facts about the store operations under the well-formedness
invariant (at most one entry per server key). -/

theorem server_ne_of_any_false {st : KState} {s : Server}
    (h : st.any (serverMatches s) = false) : ∀ e ∈ st, e.server ≠ s := by
  intro e he
  have h2 := List.any_eq_false.1 h e he
  simpa [serverMatches] using h2

theorem any_false_of_server_ne {st : KState} {s : Server}
    (h : ∀ e ∈ st, e.server ≠ s) : st.any (serverMatches s) = false := by
  rw [List.any_eq_false]
  intro e he
  simpa [serverMatches] using h e he

theorem eraseP_no_match {st : KState} {s : Server} (hwf : WellFormed st) :
    (st.eraseP (serverMatches s)).any (serverMatches s) = false := by
  induction st with
  | nil => simp
  | cons e rest ih =>
    rw [WellFormed, List.pairwise_cons] at hwf
    by_cases hm : serverMatches s e = true
    · simp only [List.eraseP_cons, hm, cond_true]
      apply any_false_of_server_ne
      intro b hb
      have hes : e.server = s := by simpa [serverMatches] using hm
      exact fun hbs => (hwf.1 b hb) (hes.trans hbs.symm)
    · have hm' : serverMatches s e = false := by simpa using hm
      simp only [List.eraseP_cons, hm', cond_false, List.any_cons, Bool.false_or]
      exact ih hwf.2

theorem find?_none_of_any_false {st : KState} {s : Server}
    (h : st.any (serverMatches s) = false) : st.find? (serverMatches s) = none := by
  rw [List.find?_eq_none]
  intro x hx
  simpa using List.any_eq_false.1 h x hx

theorem delete_of_splitServer_error {st : KState} {url : String} {e : URLError}
    (h : splitServer url = .error e) :
    Osxkeychain.Delete st url = (st, some (GoError.url e)) := by
  simp [Osxkeychain.Delete, h]

theorem delete_result_spec {st : KState} {url : String} {s : Server}
    (hwf : WellFormed st) (hs : splitServer url = .ok s) :
    (Osxkeychain.Delete st url).1.any (serverMatches s) = false
      ∧ WellFormed (Osxkeychain.Delete st url).1 := by
  by_cases hm : st.any (serverMatches s) = true
  · have hd : Osxkeychain.Delete st url = (st.eraseP (serverMatches s), none) := by
      simp [Osxkeychain.Delete, hs, keychain_delete, hasServer, hm]
    rw [hd]
    exact ⟨eraseP_no_match hwf, hwf.sublist (List.eraseP_sublist st)⟩
  · have hm' : st.any (serverMatches s) = false := by simpa using hm
    have hd : Osxkeychain.Delete st url
        = (st, some (GoError.platform errCredentialsNotFound)) := by
      simp [Osxkeychain.Delete, hs, keychain_delete, hasServer, hm']
    rw [hd]
    exact ⟨hm', hwf⟩

theorem delete_err_unchanged {st : KState} {url : String} {e : GoError}
    (h : (Osxkeychain.Delete st url).2 = some e) :
    (Osxkeychain.Delete st url).1 = st := by
  cases hs : splitServer url with
  | error e0 => simp [Osxkeychain.Delete, hs]
  | ok s =>
    by_cases hm : hasServer st s = true
    · exfalso
      have hd : Osxkeychain.Delete st url = (st.eraseP (serverMatches s), none) := by
        simp [Osxkeychain.Delete, hs, keychain_delete, hm]
      rw [hd] at h
      exact Option.noConfusion h
    · have hm' : hasServer st s = false := by simpa using hm
      simp [Osxkeychain.Delete, hs, keychain_delete, hm']

theorem add_result {st : KState} {creds : Credentials} {s : Server}
    (hwf : WellFormed st) (hs : splitServer creds.ServerURL = .ok s) :
    Osxkeychain.Add st creds =
      ((Osxkeychain.Delete st creds.ServerURL).1
          ++ [⟨s, CredsLabel, creds.Username, creds.Secret⟩], none) := by
  have hnm := (delete_result_spec hwf hs).1
  simp [Osxkeychain.Add, hs, keychain_add, hasServer, hnm]

theorem add_wf {st : KState} {creds : Credentials} {s : Server}
    (hwf : WellFormed st) (hs : splitServer creds.ServerURL = .ok s) :
    WellFormed (Osxkeychain.Add st creds).1 := by
  rw [add_result hwf hs]
  rw [WellFormed, List.pairwise_append]
  refine ⟨(delete_result_spec hwf hs).2, by simp, ?_⟩
  intro a ha b hb
  simp only [List.mem_singleton] at hb
  subst hb
  exact server_ne_of_any_false (delete_result_spec hwf hs).1 a ha

theorem get_of_appended {st1 : KState} {s : Server} {e : KEntry}
    (hm : st1.any (serverMatches s) = false) (hes : e.server = s) :
    keychain_get (st1 ++ [e]) s = .ok (e.username, e.secret) := by
  unfold keychain_get
  rw [List.find?_append, find?_none_of_any_false hm]
  simp [serverMatches, hes]

theorem roundtrip_core {st : KState} {creds : Credentials} {s : Server}
    (hwf : WellFormed st) (hs : splitServer creds.ServerURL = .ok s) :
    Osxkeychain.Get (Osxkeychain.Add st creds).1 creds.ServerURL
      = .ok (creds.Username, creds.Secret) := by
  rw [add_result hwf hs]
  have hg := get_of_appended (e := ⟨s, CredsLabel, creds.Username, creds.Secret⟩)
    (delete_result_spec hwf hs).1 rfl
  simp [Osxkeychain.Get, hs, hg]

/-! ## URL-normalization lemmas -/

theorem parseAfterSchemeQ_ok_Scheme {scheme rest rawQuery : List Char} {fq : Bool} {u : GoURL}
    (h : parseAfterSchemeQ scheme rest rawQuery fq = .ok u) : u.Scheme = scheme := by
  unfold parseAfterSchemeQ at h
  split at h
  · cases h; rfl
  · split at h
    · cases h
    · split at h
      · split at h
        · cases h
        · split at h
          · cases h
          · cases h; rfl
      · split at h
        · cases h
        · cases h; rfl

theorem parseAfterScheme_ok_Scheme {scheme rest : List Char} {u : GoURL}
    (h : parseAfterScheme scheme rest = .ok u) : u.Scheme = scheme :=
  parseAfterSchemeQ_ok_Scheme h

theorem getScheme_lead {t : List Char} :
    getScheme ('/' :: '/' :: t) = .ok ([], '/' :: '/' :: t) := by
  simp [getScheme]

theorem parseInner_lead_scheme {t : List Char} {u : GoURL}
    (h : parseInner ('/' :: '/' :: t) = .ok u) : u.Scheme = [] := by
  unfold parseInner at h
  split at h
  · cases h
  · split at h
    · cases h; rfl
    · split at h
      · cases h
      · rename_i sr heq
        rw [getScheme_lead] at heq
        cases heq
        simpa [listToLower] using parseAfterScheme_ok_Scheme h

theorem leadChars_two {raw : List Char} (h : leadChars ['/', '/'] raw = true) :
    ∃ t, raw = '/' :: '/' :: t := by
  cases raw with
  | nil => simp [leadChars] at h
  | cons a rest =>
    cases rest with
    | nil => simp [leadChars] at h
    | cons b t =>
      simp [leadChars] at h
      exact ⟨t, by rw [← h.1, ← h.2]⟩

theorem splitChar_cons_ne {sep c : Char} {cutc : Bool} {xs : List Char} (h : ¬ c = sep) :
    splitChar sep cutc (c :: xs) =
      (c :: (splitChar sep cutc xs).1, (splitChar sep cutc xs).2) := by
  simp [splitChar, h]

theorem urlParse_lead_scheme {raw : List Char} {u : GoURL}
    (hl : leadChars ['/', '/'] raw = true) (h : urlParse raw = .ok u) : u.Scheme = [] := by
  obtain ⟨t, rfl⟩ := leadChars_two hl
  unfold urlParse at h
  rw [splitChar_cons_ne (by decide), splitChar_cons_ne (by decide)] at h
  split at h
  · cases h
  · rename_i u0 heq
    split at h
    · cases h
      exact parseInner_lead_scheme heq
    · split at h
      · cases h
      · cases h
        simpa using parseInner_lead_scheme heq

theorem normalizeInput_lead {s : String} (h : schemeAtStart s.data = false) :
    leadChars ['/', '/'] (normalizeInput s) = true := by
  unfold normalizeInput
  by_cases hr : codeRegexAccepts s.data = true
  · rw [if_pos hr]
    unfold codeRegexAccepts at hr
    rcases (Bool.or_eq_true _ _).mp hr with h1 | h1
    · exact h1
    · rw [h] at h1; cases h1
  · rw [if_neg hr]
    simp [leadChars]

theorem splitServer_reduce {s : String} {u : GoURL}
    (hu : urlParse (normalizeInput s) = .ok u)
    (hsch : u.Scheme = [] ∨ u.Scheme = "http".data ∨ u.Scheme = "https".data)
    (hh : urlHostname u ≠ []) :
    splitServer s =
      (match (if urlPort u ≠ [] then goAtoi (urlPort u) else .ok 0) with
       | .error e => .error e
       | .ok p =>
         .ok ⟨(if u.Scheme = "http".data then SecProtocolType.HTTP else SecProtocolType.HTTPS),
              String.mk u.Host, (p.emod (2 ^ 32)).toNat, String.mk u.Path⟩) := by
  have hcond : ¬ (u.Scheme ≠ [] ∧ u.Scheme ≠ "https".data ∧ u.Scheme ≠ "http".data) := by
    rcases hsch with h1 | h1 | h1 <;> simp [h1]
  unfold splitServer
  rw [hu]
  simp only [hcond, if_false, hh, if_neg hh]

theorem splitServer_parse_err {s : String} {e : URLError}
    (hu : urlParse (normalizeInput s) = .error e) : splitServer s = .error e := by
  unfold splitServer
  rw [hu]

theorem splitServer_noHost {s : String} {u : GoURL}
    (hu : urlParse (normalizeInput s) = .ok u)
    (hsch : u.Scheme = [] ∨ u.Scheme = "http".data ∨ u.Scheme = "https".data)
    (hh : urlHostname u = []) :
    splitServer s = .error .noHostname := by
  have hcond : ¬ (u.Scheme ≠ [] ∧ u.Scheme ≠ "https".data ∧ u.Scheme ≠ "http".data) := by
    rcases hsch with h1 | h1 | h1 <;> simp [h1]
  unfold splitServer
  rw [hu]
  simp [hcond, hh]

/-- C5 (amended): for every serverURL lacking a scheme prefix of shape
`[a-zA-Z][-+.a-zA-Z0-9]+://`, normalization defaults the protocol to
HTTPS, and it succeeds if and only if a non-empty host can be extracted
and any present port is accepted by `strconv.Atoi` (the original claim
had no port condition); in particular `splitServer "https://"` and
`splitServer ""` fail with the missing-host error. -/
theorem noSchemeDefaultsHTTPS :
    (∀ s : String, schemeAtStart s.data = false →
      (∀ srv, splitServer s = .ok srv → srv.proto = SecProtocolType.HTTPS)
        ∧ ((splitServer s).isOk = true ↔ hostExtractable s = true ∧ portFits s = true))
    ∧ splitServer "https://" = .error .noHostname
    ∧ splitServer "" = .error .noHostname := by
  refine ⟨?_, by decide, by decide⟩
  intro s hns
  have hlead := normalizeInput_lead hns
  cases hu : urlParse (normalizeInput s) with
  | error e =>
    have hss := splitServer_parse_err (s := s) hu
    rw [hss]
    constructor
    · intro srv hsrv; cases hsrv
    · simp [hostExtractable, hu, Except.isOk, Except.toBool]
  | ok u =>
    have hsch : u.Scheme = [] := urlParse_lead_scheme hlead hu
    have hproto : (if u.Scheme = "http".data then SecProtocolType.HTTP else SecProtocolType.HTTPS)
        = SecProtocolType.HTTPS := by
      rw [if_neg]
      rw [hsch]
      decide
    by_cases hh : urlHostname u = []
    · have hss := splitServer_noHost hu (.inl hsch) hh
      rw [hss]
      constructor
      · intro srv hsrv; cases hsrv
      · simp [hostExtractable, hu, hh, Except.isOk, Except.toBool]
    · have hred := splitServer_reduce hu (.inl hsch) hh
      by_cases hp : urlPort u = []
      · have hss : splitServer s
            = .ok ⟨SecProtocolType.HTTPS, String.mk u.Host, 0, String.mk u.Path⟩ := by
          rw [hred]
          simp [hp, hproto]
          all_goals decide
        rw [hss]
        constructor
        · intro srv hsrv
          cases hsrv
          rfl
        · simp [hostExtractable, portFits, hu, hh, hp, Except.isOk, Except.toBool]
      · cases ha : goAtoi (urlPort u) with
        | error e =>
          have hss : splitServer s = .error e := by
            rw [hred]
            simp [hp, ha]
          rw [hss]
          constructor
          · intro srv hsrv; cases hsrv
          · simp [hostExtractable, portFits, hu, hh, hp, ha, Except.isOk, Except.toBool]
        | ok p =>
          have hss : splitServer s
              = .ok ⟨SecProtocolType.HTTPS, String.mk u.Host, (p.emod (2 ^ 32)).toNat,
                  String.mk u.Path⟩ := by
            rw [hred]
            simp [hp, ha, hproto]
          rw [hss]
          constructor
          · intro srv hsrv
            cases hsrv
            rfl
          · simp [hostExtractable, portFits, hu, hh, hp, ha, Except.isOk, Except.toBool]

/-- C5 counterexample to the original claim: `"h:9223372036854775808"`
has no scheme prefix, a non-empty host is extracted, yet normalization
fails (the port overflows a 64-bit int, so `strconv.Atoi` errors). -/
theorem noSchemeHostIffFailsOnOverflowPort :
    schemeAtStart "h:9223372036854775808".data = false
      ∧ hostExtractable "h:9223372036854775808" = true
      ∧ (splitServer "h:9223372036854775808").isOk = false := by
  refine ⟨by decide, by decide, by decide⟩

/-- C5 witness: the amended equivalence evaluated at "example.com". -/
theorem noSchemeDefaultsHTTPS_witness :
    schemeAtStart "example.com".data = false
      ∧ ((splitServer "example.com").isOk = true
          ↔ hostExtractable "example.com" = true ∧ portFits "example.com" = true) :=
  ⟨by decide, (noSchemeDefaultsHTTPS.1 "example.com" (by decide)).2⟩

theorem splitServer_unsupported {s : String} {u : GoURL}
    (hu : urlParse (normalizeInput s) = .ok u)
    (h1 : u.Scheme ≠ []) (h2 : u.Scheme ≠ "http".data) (h3 : u.Scheme ≠ "https".data) :
    splitServer s = .error (.unsupportedScheme (String.mk u.Scheme)) := by
  unfold splitServer
  rw [hu]
  simp [h1, h2, h3]

theorem splitServer_ok_inv {s : String} {srv : Server} (h : splitServer s = .ok srv) :
    ∃ u, urlParse (normalizeInput s) = .ok u
      ∧ (u.Scheme = [] ∨ u.Scheme = "http".data ∨ u.Scheme = "https".data)
      ∧ urlHostname u ≠ []
      ∧ ∃ p, (if urlPort u ≠ [] then goAtoi (urlPort u) else .ok 0) = .ok p
          ∧ srv = ⟨(if u.Scheme = "http".data then SecProtocolType.HTTP
                      else SecProtocolType.HTTPS),
              String.mk u.Host, (p.emod (2 ^ 32)).toNat, String.mk u.Path⟩ := by
  unfold splitServer at h
  split at h
  · simp at h
  · rename_i u heq
    refine ⟨u, heq, ?_⟩
    split at h
    · simp at h
    · rename_i hC
      split at h
      · simp at h
      · rename_i hh
        split at h
        · simp at h
        · rename_i p hp
          cases h
          refine ⟨?_, hh, p, hp, rfl⟩
          by_cases e1 : u.Scheme = []
          · exact .inl e1
          by_cases e2 : u.Scheme = "http".data
          · exact .inr (.inl e2)
          by_cases e3 : u.Scheme = "https".data
          · exact .inr (.inr e3)
          exact absurd ⟨e1, e3, e2⟩ hC

/-- C6: every serverURL whose parsed scheme is neither empty nor `http`
nor `https` is rejected by `splitServer` with the unsupported-scheme
error, and `splitServer` never succeeds on any other scheme. -/
theorem unsupportedSchemeRejected :
    (∀ (s : String) (u : GoURL), urlParse (normalizeInput s) = .ok u →
        u.Scheme ≠ [] → u.Scheme ≠ "http".data → u.Scheme ≠ "https".data →
        splitServer s = .error (.unsupportedScheme (String.mk u.Scheme)))
    ∧ (∀ (s : String) (srv : Server), splitServer s = .ok srv →
        ∃ u, urlParse (normalizeInput s) = .ok u ∧
          (u.Scheme = [] ∨ u.Scheme = "http".data ∨ u.Scheme = "https".data)) := by
  constructor
  · intro s u hu h1 h2 h3
    exact splitServer_unsupported hu h1 h2 h3
  · intro s srv h
    obtain ⟨u, hu, hsch, -⟩ := splitServer_ok_inv h
    exact ⟨u, hu, hsch⟩

/-- C6 witness: `"ftp://host"` parses with scheme `ftp` and is rejected. -/
theorem unsupportedSchemeRejected_witness :
    urlParse (normalizeInput "ftp://host")
        = .ok ⟨"ftp".data, [], "host".data, [], false, [], []⟩
      ∧ splitServer "ftp://host" = .error (.unsupportedScheme "ftp") :=
  ⟨by decide,
    unsupportedSchemeRejected.1 "ftp://host" ⟨"ftp".data, [], "host".data, [], false, [], []⟩
      (by decide) (by decide) (by decide) (by decide)⟩

/-- C7: normalization parses a present port with `strconv.Atoi` and
propagates the port failure (`"host:notanumber/path"` fails with
net/url's invalid-port error; a parsed port on which Atoi fails makes
`splitServer` return that failure), and an absent port normalizes to 0. -/
theorem portParsing :
    splitServer "host:notanumber/path" = .error (.invalidPort ":notanumber")
    ∧ (∀ (s : String) (u : GoURL) (e : URLError),
        urlParse (normalizeInput s) = .ok u →
        (u.Scheme = [] ∨ u.Scheme = "http".data ∨ u.Scheme = "https".data) →
        urlHostname u ≠ [] → urlPort u ≠ [] → goAtoi (urlPort u) = .error e →
        splitServer s = .error e)
    ∧ (∀ (s : String) (u : GoURL) (srv : Server),
        urlParse (normalizeInput s) = .ok u → urlPort u = [] →
        splitServer s = .ok srv → srv.port = 0) := by
  refine ⟨by decide, ?_, ?_⟩
  · intro s u e hu hsch hh hp ha
    rw [splitServer_reduce hu hsch hh]
    simp [hp, ha]
  · intro s u srv hu hp h
    obtain ⟨u', hu', -, -, p, hpa, hsrv⟩ := splitServer_ok_inv h
    rw [hu] at hu'
    cases hu'
    rw [if_neg (by simp [hp])] at hpa
    cases hpa
    rw [hsrv]
    simp
    all_goals decide

/-- C7 witness: `"https://host"` parses with an empty port and
normalizes with port 0. -/
theorem portParsing_witness :
    urlParse (normalizeInput "https://host")
        = .ok ⟨"https".data, [], "host".data, [], false, [], []⟩
      ∧ splitServer "https://host"
        = .ok ⟨SecProtocolType.HTTPS, "host", 0, ""⟩
      ∧ (⟨SecProtocolType.HTTPS, "host", 0, ""⟩ : Server).port = 0 :=
  ⟨by decide, by decide,
    portParsing.2.2 "https://host" ⟨"https".data, [], "host".data, [], false, [], []⟩
      ⟨SecProtocolType.HTTPS, "host", 0, ""⟩ (by decide) (by decide) (by decide)⟩

/-- C1: for every stored-at-most-once keychain state and every
credential whose serverURL normalizes successfully, `Add` followed by
`Get` on the same serverURL returns exactly the stored username and
secret. -/
theorem addGetRoundtrip (st : KState) (creds : Credentials) (s : Server)
    (hwf : WellFormed st) (hs : splitServer creds.ServerURL = .ok s) :
    Osxkeychain.Get (Osxkeychain.Add st creds).1 creds.ServerURL
      = .ok (creds.Username, creds.Secret) :=
  roundtrip_core hwf hs

/-- C1 witness: the round trip on the empty keychain. -/
theorem addGetRoundtrip_witness :
    WellFormed ([] : KState)
      ∧ splitServer "https://example.com" = .ok ⟨SecProtocolType.HTTPS, "example.com", 0, ""⟩
      ∧ Osxkeychain.Get (Osxkeychain.Add [] ⟨"https://example.com", "alice", "s3cret"⟩).1
          "https://example.com" = .ok ("alice", "s3cret") :=
  ⟨List.Pairwise.nil, by decide,
    addGetRoundtrip [] ⟨"https://example.com", "alice", "s3cret"⟩
      ⟨SecProtocolType.HTTPS, "example.com", 0, ""⟩ List.Pairwise.nil (by decide)⟩

/-- C2: adding twice under the same serverURL (with different secrets)
leaves the store answering `Get` with only the second credential's
username and secret. -/
theorem addOverwrites (st : KState) (cA cB : Credentials) (s : Server)
    (hwf : WellFormed st) (hurl : cA.ServerURL = cB.ServerURL)
    (hsec : cA.Secret ≠ cB.Secret) (hs : splitServer cB.ServerURL = .ok s) :
    Osxkeychain.Get (Osxkeychain.Add (Osxkeychain.Add st cA).1 cB).1 cB.ServerURL
      = .ok (cB.Username, cB.Secret) := by
  have hsA : splitServer cA.ServerURL = .ok s := by rw [hurl]; exact hs
  exact roundtrip_core (add_wf hwf hsA) hs

/-- C2 witness: overwrite on the empty keychain. -/
theorem addOverwrites_witness :
    ("s3cret" : String) ≠ "other"
      ∧ Osxkeychain.Get
          (Osxkeychain.Add (Osxkeychain.Add [] ⟨"https://example.com", "alice", "s3cret"⟩).1
            ⟨"https://example.com", "bob", "other"⟩).1
          "https://example.com" = .ok ("bob", "other") :=
  ⟨by decide,
    addOverwrites [] ⟨"https://example.com", "alice", "s3cret"⟩
      ⟨"https://example.com", "bob", "other"⟩
      ⟨SecProtocolType.HTTPS, "example.com", 0, ""⟩
      List.Pairwise.nil rfl (by decide) (by decide)⟩

/-- C3: `Get` on a successfully-normalizing serverURL with no stored
credential returns the typed not-found error (the platform's not-found
message is matched against the exact text), and any other platform
message is surfaced as a generic error carrying it. -/
theorem getNotFoundTyped :
    (∀ (st : KState) (url : String) (s : Server),
        splitServer url = .ok s → hasServer st s = false →
        Osxkeychain.Get st url = .error GoError.credentialsNotFound)
    ∧ (∀ msg : String, msg ≠ errCredentialsNotFound →
        keychainGetTranslate msg = GoError.platform msg) := by
  constructor
  · intro st url s hs hns
    have hfind : st.find? (serverMatches s) = none :=
      find?_none_of_any_false (by simpa [hasServer] using hns)
    simp [Osxkeychain.Get, hs, keychain_get, hfind, keychainGetTranslate]
  · intro msg hmsg
    simp [keychainGetTranslate, hmsg]

/-- C3 witness: empty keychain, a never-added URL, and an unrelated
platform message. -/
theorem getNotFoundTyped_witness :
    splitServer "https://example.com" = .ok ⟨SecProtocolType.HTTPS, "example.com", 0, ""⟩
      ∧ Osxkeychain.Get [] "https://example.com" = .error GoError.credentialsNotFound
      ∧ keychainGetTranslate "keychain is locked" = GoError.platform "keychain is locked" :=
  ⟨by decide,
    getNotFoundTyped.1 [] "https://example.com" ⟨SecProtocolType.HTTPS, "example.com", 0, ""⟩
      (by decide) (by decide),
    getNotFoundTyped.2 "keychain is locked" (by decide)⟩

/-- C4: `Delete` on a successfully-normalizing serverURL with no stored
credential returns a generic error carrying the platform's not-found
message, and `Delete` never returns the typed not-found error. -/
theorem deleteNotFoundGeneric :
    (∀ (st : KState) (url : String) (s : Server),
        splitServer url = .ok s → hasServer st s = false →
        Osxkeychain.Delete st url = (st, some (GoError.platform errCredentialsNotFound)))
    ∧ (∀ (st : KState) (url : String),
        (Osxkeychain.Delete st url).2 ≠ some GoError.credentialsNotFound) := by
  constructor
  · intro st url s hs hns
    simp [Osxkeychain.Delete, hs, keychain_delete, hns]
  · intro st url
    cases hs : splitServer url with
    | error e => simp [Osxkeychain.Delete, hs]
    | ok s =>
      by_cases hm : hasServer st s = true
      · simp [Osxkeychain.Delete, hs, keychain_delete, hm]
      · have hm' : hasServer st s = false := by simpa using hm
        simp [Osxkeychain.Delete, hs, keychain_delete, hm']

/-- C4 witness: deleting a never-added URL from the empty keychain. -/
theorem deleteNotFoundGeneric_witness :
    splitServer "https://example.com" = .ok ⟨SecProtocolType.HTTPS, "example.com", 0, ""⟩
      ∧ Osxkeychain.Delete [] "https://example.com"
          = ([], some (GoError.platform errCredentialsNotFound)) :=
  ⟨by decide,
    deleteNotFoundGeneric.1 [] "https://example.com"
      ⟨SecProtocolType.HTTPS, "example.com", 0, ""⟩ (by decide) (by decide)⟩

/-! ## List lemmas -/

theorem goMapLookup_nil (k : String) : goMapLookup [] k = none := rfl

theorem goMapLookup_cons (p : String × String) (rest : GoMap) (k : String) :
    goMapLookup (p :: rest) k = if p.1 = k then some p.2 else goMapLookup rest k := by
  by_cases h : p.1 = k
  · simp [goMapLookup, List.find?, h]
  · simp [goMapLookup, List.find?, h]

theorem goMapInsert_cons (q : String × String) (rest : GoMap) (k v : String) :
    goMapInsert (q :: rest) k v
      = if q.1 = k then (k, v) :: rest else q :: goMapInsert rest k v := by
  cases q
  rfl

theorem goMapLookup_insert (m : GoMap) (k v k' : String) :
    goMapLookup (goMapInsert m k v) k' = if k' = k then some v else goMapLookup m k' := by
  induction m with
  | nil =>
    rw [show goMapInsert [] k v = [(k, v)] from rfl, goMapLookup_cons]
    by_cases h : k = k'
    · rw [if_pos h, if_pos h.symm]
    · rw [if_neg h, if_neg (fun hh => h hh.symm)]
  | cons q rest ih =>
    rw [goMapInsert_cons]
    by_cases hq : q.1 = k
    · rw [if_pos hq, goMapLookup_cons, goMapLookup_cons]
      by_cases h : k = k'
      · rw [if_pos h, if_pos h.symm]
      · rw [if_neg h, if_neg (fun hh => h hh.symm),
          if_neg (fun hh : q.1 = k' => h (hq.symm.trans hh))]
    · rw [if_neg hq, goMapLookup_cons, ih, goMapLookup_cons]
      by_cases h : k' = k
      · rw [if_pos h, if_pos h, if_neg (fun hh : q.1 = k' => hq (hh.trans h))]
      · rw [if_neg h, if_neg h]

theorem lastAccountFor_cons (p : String × String) (rest : GoPairs) (k : String) :
    lastAccountFor (p :: rest) k
      = match lastAccountFor rest k with
        | some v => some v
        | none => if p.1 = k then some p.2 else none := rfl

theorem listToMapFold_zero (pairs : GoPairs) (acc : GoMap) :
    goMapLookup
        (pairs.foldl (fun resp p => if p.1 = "0" then resp else goMapInsert resp p.1 p.2) acc)
        "0"
      = goMapLookup acc "0" := by
  induction pairs generalizing acc with
  | nil => rfl
  | cons p rest ih =>
    rw [List.foldl_cons, ih]
    by_cases h : p.1 = "0"
    · rw [if_pos h]
    · rw [if_neg h, goMapLookup_insert, if_neg (fun hh => h hh.symm)]

theorem listToMapFold_lookup (pairs : GoPairs) (acc : GoMap) (k : String) (hk : k ≠ "0") :
    goMapLookup
        (pairs.foldl (fun resp p => if p.1 = "0" then resp else goMapInsert resp p.1 p.2) acc)
        k
      = (match lastAccountFor pairs k with
         | some v => some v
         | none => goMapLookup acc k) := by
  induction pairs generalizing acc with
  | nil => rfl
  | cons p rest ih =>
    rw [List.foldl_cons, ih, lastAccountFor_cons]
    cases hl : lastAccountFor rest k with
    | some v => rfl
    | none =>
      by_cases hp : p.1 = k
      · have h0 : ¬ p.1 = "0" := by rw [hp]; exact hk
        rw [if_pos hp, if_neg h0, goMapLookup_insert, if_pos hp.symm]
      · by_cases h0 : p.1 = "0"
        · rw [if_neg hp, if_pos h0]
        · rw [if_neg hp, if_neg h0, goMapLookup_insert, if_neg (fun hh => hp hh.symm)]

theorem lastAccountFor_mem {pairs : GoPairs} {k v : String}
    (h : lastAccountFor pairs k = some v) : (k, v) ∈ pairs := by
  induction pairs with
  | nil => cases h
  | cons p rest ih =>
    rw [lastAccountFor_cons] at h
    cases hl : lastAccountFor rest k with
    | some w =>
      rw [hl] at h
      cases h
      exact List.mem_cons_of_mem _ (ih hl)
    | none =>
      rw [hl] at h
      by_cases hp : p.1 = k
      · rw [if_pos hp] at h
        cases h
        have hpv : p = (k, p.2) := by
          cases p
          cases hp
          rfl
        rw [show ((k, p.2) : String × String) = p from hpv.symm]
        exact List.mem_cons_self _ _
      · rw [if_neg hp] at h
        cases h

/-- C8: on a successful enumeration, `List` builds a map whose binding
at each key different from the sentinel `"0"` is the account of the last
enumerated pair with that key (so every non-sentinel pair contributes
and later duplicates overwrite earlier ones), with no binding at `"0"`,
and every binding comes from an enumerated (key, account) pair — the map
carries usernames only, never secrets. -/
theorem listMapSemantics (pairs : GoPairs) (m : GoMap)
    (h : Osxkeychain.List (.ok pairs) = .ok m) :
    goMapLookup m "0" = none
    ∧ (∀ k, k ≠ "0" → goMapLookup m k = lastAccountFor pairs k)
    ∧ (∀ k v, goMapLookup m k = some v → (k, v) ∈ pairs) := by
  have hm : m = listToMap pairs := by
    have h2 : (Except.ok (listToMap pairs) : Except GoError GoMap) = Except.ok m := by
      simpa [Osxkeychain.List] using h
    cases h2
    rfl
  subst hm
  have hzero : goMapLookup (listToMap pairs) "0" = none := by
    rw [listToMap, listToMapFold_zero]
    rfl
  have hlook : ∀ k, k ≠ "0" → goMapLookup (listToMap pairs) k = lastAccountFor pairs k := by
    intro k hk
    rw [listToMap, listToMapFold_lookup _ _ _ hk]
    cases lastAccountFor pairs k <;> rfl
  refine ⟨hzero, hlook, ?_⟩
  intro k v hkv
  by_cases hk : k = "0"
  · rw [hk, hzero] at hkv
    cases hkv
  · rw [hlook k hk] at hkv
    exact lastAccountFor_mem hkv

/-- C8 witness: a concrete enumeration with a sentinel entry and a
duplicate key. -/
theorem listMapSemantics_witness :
    Osxkeychain.List (.ok [("a", "u1"), ("0", "x"), ("a", "u2"), ("b", "u3")])
        = .ok [("a", "u2"), ("b", "u3")]
      ∧ goMapLookup [("a", "u2"), ("b", "u3")] "0" = none
      ∧ goMapLookup [("a", "u2"), ("b", "u3")] "a"
          = lastAccountFor [("a", "u1"), ("0", "x"), ("a", "u2"), ("b", "u3")] "a" :=
  ⟨by decide, (listMapSemantics [("a", "u1"), ("0", "x"), ("a", "u2"), ("b", "u3")]
      [("a", "u2"), ("b", "u3")] (by decide)).1,
    (listMapSemantics [("a", "u1"), ("0", "x"), ("a", "u2"), ("b", "u3")]
      [("a", "u2"), ("b", "u3")] (by decide)).2.1 "a" (by decide)⟩

/-- C9: under the at-most-once invariant, an `Add` or `Delete` that
returns an error leaves the prior stored state unchanged; `Get` and
`List` read the store without producing a successor state, so the
claim's content is the two mutating operations. -/
theorem errorLeavesStateUnchanged (st : KState) (hwf : WellFormed st) :
    (∀ (creds : Credentials) (e : GoError),
        (Osxkeychain.Add st creds).2 = some e → (Osxkeychain.Add st creds).1 = st)
    ∧ (∀ (url : String) (e : GoError),
        (Osxkeychain.Delete st url).2 = some e → (Osxkeychain.Delete st url).1 = st) := by
  constructor
  · intro creds e h
    cases hs : splitServer creds.ServerURL with
    | ok s =>
      rw [add_result hwf hs] at h
      simp at h
    | error e0 =>
      have hd := @delete_of_splitServer_error st creds.ServerURL e0 hs
      simp [Osxkeychain.Add, hs, hd]
  · intro url e h
    exact delete_err_unchanged h

/-- C9 witness: an `Add` with a non-normalizing serverURL errors and
leaves the empty keychain empty. -/
theorem errorLeavesStateUnchanged_witness :
    WellFormed ([] : KState)
      ∧ (Osxkeychain.Add [] ⟨"", "u", "p"⟩).2 = some (GoError.url URLError.noHostname)
      ∧ (Osxkeychain.Add [] ⟨"", "u", "p"⟩).1 = [] :=
  ⟨List.Pairwise.nil, by decide,
    (errorLeavesStateUnchanged [] List.Pairwise.nil).1 ⟨"", "u", "p"⟩
      (GoError.url URLError.noHostname) (by decide)⟩

/-- C10: `Add` discards the preliminary `Delete`'s result entirely: when
that delete fails (for any reason — not-found, a normalization failure
or any other platform message), `Add` still proceeds to normalize the
URL and, if normalization succeeds, invokes the platform add primitive
on the store the failed delete left behind (which it left unchanged). -/
theorem addIgnoresDeleteFailure (st : KState) (creds : Credentials) (e : GoError)
    (hd : (Osxkeychain.Delete st creds.ServerURL).2 = some e) :
    Osxkeychain.Add st creds =
      (match splitServer creds.ServerURL with
       | .error e2 => (st, some (GoError.url e2))
       | .ok s =>
         match keychain_add st s CredsLabel creds.Username creds.Secret with
         | (st2, some msg) => (st2, some (GoError.platform msg))
         | (st2, none) => (st2, none)) := by
  have h1 := delete_err_unchanged hd
  unfold Osxkeychain.Add
  rw [h1]

/-- C10 witness: on the empty keychain the preliminary delete fails with
the platform not-found message, and `Add` still adds the entry. -/
theorem addIgnoresDeleteFailure_witness :
    (Osxkeychain.Delete [] "https://h").2 = some (GoError.platform errCredentialsNotFound)
      ∧ Osxkeychain.Add [] ⟨"https://h", "u", "p"⟩ =
        (match splitServer "https://h" with
         | .error e2 => ([], some (GoError.url e2))
         | .ok s =>
           match keychain_add [] s CredsLabel "u" "p" with
           | (st2, some msg) => (st2, some (GoError.platform msg))
           | (st2, none) => (st2, none)) :=
  ⟨by decide,
    addIgnoresDeleteFailure [] ⟨"https://h", "u", "p"⟩
      (GoError.platform errCredentialsNotFound) (by decide)⟩
